import Mathlib

/-!
# Verification of the InfoFlow agent-simulation notebook

A shallow embedding of the agent simulation in `0_simple_entities.ipynb`.

Modelling conventions:
* Python floats become `ℚ`.
* The global random source (`random.random`, `random.betavariate`,
  `random.randint`, `random.choice`, `random.shuffle`) is modelled by an
  explicit stream of rationals in `[0,1)` together with a cursor; each
  primitive draw consumes one stream element and records which kind of
  draw was requested in a trace (`DrawKind`), so that statements about
  which distribution a piece of code samples from can be made precise.
  `random.choice(l)` maps the consumed stream element `u` to the index
  `⌊u * l.length⌋` (clamped); `random.randint(lo, hi)` maps it to
  `lo + ⌊u * (hi - lo + 1)⌋`; `random.betavariate a b` is treated as an
  abstract draw whose value is the stream element itself (an arbitrary
  value in `[0,1)`), which is exactly the information the claims need.
  `random.shuffle` is modelled as the draw-driven selection permutation
  (repeatedly pick a remaining index and remove it), which realises the
  same contract — a permutation of its input chosen by the random source.
* A Python `set[int]` is modelled as a `List ℤ` with idempotent insertion
  (`setAdd`); `set.pop()`, which removes an unspecified element, is
  modelled as removing the head of the list.
* Code that can raise (`assert` in the constructor, `ZeroDivisionError`
  in the runner) returns an `Option`, where `none` is the raised error.
* `Worker.target_fact` is `None` only transiently inside `__init__`
  before `generate_new_target_fact` runs; every constructed researcher
  has a target, so the field is modelled as a plain `ℤ`.
-/

/- Batteries marks the `Rat` field operations `@[irreducible]`, which blocks
`decide`/`rfl` evaluation of the model on concrete rational inputs at
elaboration time (the kernel itself unfolds them fine).  Restore the
default reducibility so concrete instances of the theorems can be checked
by evaluation. -/

set_option allowUnsafeReducibility true in
attribute [semireducible] Rat.mul

set_option allowUnsafeReducibility true in
attribute [semireducible] Rat.add

set_option allowUnsafeReducibility true in
attribute [semireducible] Rat.sub

set_option allowUnsafeReducibility true in
attribute [semireducible] Rat.div

set_option allowUnsafeReducibility true in
attribute [semireducible] Rat.neg

set_option allowUnsafeReducibility true in
attribute [semireducible] Rat.inv

namespace InfoFlow

/-- The kind of request made to the global random source.  This mirrors
which `random` primitive the Python code invokes, including the
distribution parameters, so that the "which distribution is used where"
claims are statable. -/
inductive DrawKind where
  | uniformFloat : DrawKind
  | betaVariate (a b : ℚ) : DrawKind
  | uniformInt (lo hi : ℤ) : DrawKind
  | choiceIdx (n : ℕ) : DrawKind
  deriving DecidableEq

/-- The global random source: a stream of rationals (intended in `[0,1)`),
a cursor, and a trace of the draw kinds requested so far. -/
structure Rng where
  stream : ℕ → ℚ
  pos : ℕ
  log : List DrawKind

/-- Consume one stream element, recording the kind of draw requested. -/
def Rng.draw (g : Rng) (k : DrawKind) : ℚ × Rng :=
  (g.stream g.pos, { g with pos := g.pos + 1, log := g.log ++ [k] })

/-- Well-formedness of a random stream: every element lies in `[0,1)`,
as the values produced by `random.random` and `random.betavariate` do. -/
def StreamWf (s : ℕ → ℚ) : Prop :=
  ∀ n, 0 ≤ s n ∧ s n < 1

/-- Map a draw `u ∈ [0,1)` to the index chosen by `random.choice` from a
list of length `n` (clamped so the definition is total). -/
def choiceIdx (n : ℕ) (u : ℚ) : ℕ :=
  min (n - 1) (⌊u * (n : ℚ)⌋).toNat

/-- Map a draw `u ∈ [0,1)` to the value produced by `random.randint lo hi`. -/
def uniformIntVal (lo hi : ℤ) (u : ℚ) : ℤ :=
  lo + ⌊u * ((hi - lo + 1 : ℤ) : ℚ)⌋

/-- Idempotent insertion into a Python-set-as-list. -/
def setAdd (l : List ℤ) (x : ℤ) : List ℤ :=
  if x ∈ l then l else x :: l

/-- The Beta-distribution parameter `a = 0.8` from the notebook's module scope. -/
def betaA : ℚ := 4 / 5

/-- The Beta-distribution parameter `b = 2` from the notebook's module scope. -/
def betaB : ℚ := 2

/-- The state of a `DatabaseResearcher` (the most derived worker class:
`Worker → Researcher → ForgetfulResearcher → SociableResearcer_v2 →
DatabaseResearcher`), with the thresholds computed by `init_thresholds`.
The colleague list (`set_colleagues`) is the cohort list itself in every
use in the notebook, so colleagues are represented by the cohort list
passed to the actions that need it. -/
structure Worker where
  n_facts : ℕ
  known_facts : List ℤ
  target_fact : ℤ
  forget_rate : ℚ
  socialise_threshold : ℚ
  database_query_threshold : ℚ
  database_write_threshold : ℚ
  contribution_success_rate : ℚ
  deriving DecidableEq

instance : Inhabited Worker :=
  ⟨{ n_facts := 0, known_facts := [], target_fact := 0, forget_rate := 0,
     socialise_threshold := 0, database_query_threshold := 0,
     database_write_threshold := 0, contribution_success_rate := 0 }⟩

/-- `ForgetfulResearcher.forget`: if `known_facts` is non-empty and a draw
falls below `forget_rate`, remove one (arbitrary) fact.  Note the draw is
only consumed when `known_facts` is non-empty, exactly as in the source. -/
def Worker.forget (w : Worker) (g : Rng) : Worker × Rng :=
  if 0 < w.known_facts.length then
    let d := g.draw .uniformFloat
    if d.1 < w.forget_rate then ({ w with known_facts := w.known_facts.tail }, d.2)
    else (w, d.2)
  else (w, g)

/-- `Worker.generate_new_target_fact`: `random.randint(0, n_facts-1)`.
The source reads the module-level `n_facts` (the argument `gN` here),
not `self.n_facts`. -/
def Worker.generate_new_target_fact (w : Worker) (gN : ℕ) (g : Rng) : Worker × Rng :=
  let d := g.draw (.uniformInt 0 ((gN : ℤ) - 1))
  ({ w with target_fact := uniformIntVal 0 ((gN : ℤ) - 1) d.1 }, d.2)

/-- `Researcher.do_research`: `int(self.n_facts * random.betavariate(a, b))`
added to `known_facts`. -/
def Worker.do_research (w : Worker) (g : Rng) : Worker × Rng :=
  let d := g.draw (.betaVariate betaA betaB)
  ({ w with known_facts := setAdd w.known_facts ⌊(w.n_facts : ℚ) * d.1⌋ }, d.2)

/-- `Worker.update`: if the target is known, report success and draw a new
target. -/
def Worker.update (w : Worker) (gN : ℕ) (g : Rng) : Worker × Bool × Rng :=
  if w.target_fact ∈ w.known_facts then
    let r := w.generate_new_target_fact gN g
    (r.1, true, r.2)
  else (w, false, g)

/-- `DatabaseResearcher.query_database`: if the target is in the shared
database, add it to `known_facts`. -/
def Worker.query_database (w : Worker) (db : List ℤ) : Worker :=
  if w.target_fact ∈ db then { w with known_facts := setAdd w.known_facts w.target_fact }
  else w

/-- `DatabaseResearcher.write_to_database`: pick one known fact with
`random.choice`, then with probability `contribution_success_rate` insert
it into the shared database.  Both draws are consumed before the test,
as in the source. -/
def Worker.write_to_database (w : Worker) (db : List ℤ) (g : Rng) : List ℤ × Rng :=
  let d1 := g.draw (.choiceIdx w.known_facts.length)
  let chosen_fact := w.known_facts.getD (choiceIdx w.known_facts.length d1.1) 0
  let d2 := d1.2.draw .uniformFloat
  if d2.1 < w.contribution_success_rate then (setAdd db chosen_fact, d2.2)
  else (db, d2.2)

/-- Result of `SociableResearcer_v2.ask_colleague` (inherited unchanged by
`DatabaseResearcher`): the updated cohort list, the updated free-resource
pool, the advanced random source, and (for the theorems) the index that
was chosen as the colleague. -/
structure AskResult where
  workers : List Worker
  pool : List ℕ
  rng : Rng
  chosen : ℕ

/-- `SociableResearcer_v2.ask_colleague`: choose an index uniformly from
the free-resource pool, remove it (`list.remove` removes the first
occurrence, i.e. `List.erase`), and if the chosen colleague knows this
agent's target fact, add it to this agent's `known_facts`.  `self` is the
asker's current state, stored at index `i` of `workers` (the cohort list
set by `set_colleagues`). -/
def ask_colleague (i : ℕ) (self : Worker) (workers : List Worker) (pool : List ℕ)
    (g : Rng) : AskResult :=
  let d := g.draw (.choiceIdx pool.length)
  let chosen_idx := pool.getD (choiceIdx pool.length d.1) 0
  let pool1 := pool.erase chosen_idx
  let colleagues_facts := (workers.getD chosen_idx default).known_facts
  if self.target_fact ∈ colleagues_facts then
    ⟨workers.set i { self with known_facts := setAdd self.known_facts self.target_fact },
      pool1, d.2, chosen_idx⟩
  else
    ⟨workers, pool1, d.2, chosen_idx⟩

/-- Which action branch `DatabaseResearcher.act` executed, with the chosen
colleague index in the ask branch.  Instrumentation for the theorems; it
does not influence any state. -/
inductive ActionTag where
  | ask (c : ℕ) : ActionTag
  | query : ActionTag
  | write : ActionTag
  | research : ActionTag
  deriving DecidableEq

/-- Result of one invocation of `DatabaseResearcher.act`. -/
structure ActResult where
  workers : List Worker
  db : List ℤ
  pool : List ℕ
  rng : Rng
  tag : ActionTag

/-- The body of `DatabaseResearcher.act` after the initial `self.forget()`:
one draw `random_value`, then the mutually exclusive branch cascade
(`ask_colleague` / `query_database` / `write_to_database` / `do_research`).
`w1` is the already-forgotten state of the acting agent, stored at index
`i` of `workers`. -/
def actBody (i : ℕ) (w1 : Worker) (workers : List Worker) (db : List ℤ)
    (pool : List ℕ) (g : Rng) : ActResult :=
  let d := g.draw .uniformFloat
  if 0 < pool.length ∧ d.1 < w1.socialise_threshold then
    let r := ask_colleague i w1 workers pool d.2
    ⟨r.workers, db, r.pool, r.rng, .ask r.chosen⟩
  else if d.1 < w1.database_query_threshold then
    ⟨workers.set i (w1.query_database db), db, pool, d.2, .query⟩
  else if 0 < w1.known_facts.length ∧ d.1 < w1.database_write_threshold then
    let wdb := w1.write_to_database db d.2
    ⟨workers, wdb.1, pool, wdb.2, .write⟩
  else
    let wr := w1.do_research d.2
    ⟨workers.set i wr.1, db, pool, wr.2, .research⟩

/-- `DatabaseResearcher.act`: `self.forget()` first, then the threshold
cascade of `actBody`. -/
def act (i : ℕ) (workers : List Worker) (db : List ℤ) (pool : List ℕ)
    (g : Rng) : ActResult :=
  let f := (workers.getD i default).forget g
  actBody i f.1 (workers.set i f.1) db pool f.2

/-- Result of the scheduler's walk over the agent indices in one tick. -/
structure WalkResult where
  workers : List Worker
  db : List ℤ
  pool : List ℕ
  rng : Rng
  evs : List (ℕ × ActionTag)

/-- The inner loop of `run_experiment_v2`, one tick: walk the indices in
fixed order; an index still in the free-resource pool is removed and its
agent acts on the live pool.  `evs` records, for each agent that acted,
its index and the branch it took (instrumentation only). -/
def tickWalk : List ℕ → List Worker → List ℤ → List ℕ → Rng → WalkResult
  | [], ws, db, pool, g => ⟨ws, db, pool, g, []⟩
  | idx :: rest, ws, db, pool, g =>
    if idx ∈ pool then
      let pool1 := pool.erase idx
      let a := act idx ws db pool1 g
      let wr := tickWalk rest a.workers a.db a.pool a.rng
      ⟨wr.workers, wr.db, wr.pool, wr.rng, (idx, a.tag) :: wr.evs⟩
    else
      tickWalk rest ws db pool g

/-- The free-resource indices an event consumed: the actor, plus the
colleague in the ask branch. -/
def removalsOfEvent : ℕ × ActionTag → List ℕ
  | (i, .ask c) => [i, c]
  | (i, _) => [i]

/-- All free-resource indices consumed during a walk. -/
def removals (evs : List (ℕ × ActionTag)) : List ℕ :=
  evs.flatMap removalsOfEvent

/-- `random.shuffle`, modelled as the draw-driven selection permutation:
repeatedly pick a remaining element by index and remove it.  The fuel is
the input length, so the recursion is structural. -/
def shuffleAux : ℕ → List ℕ → Rng → List ℕ × Rng
  | 0, _, g => ([], g)
  | fuel + 1, l, g =>
    if l.isEmpty then ([], g)
    else
      let d := g.draw (.choiceIdx l.length)
      let i := choiceIdx l.length d.1
      let x := l.getD i 0
      let r := shuffleAux fuel (l.eraseIdx i) d.2
      (x :: r.1, r.2)

/-- Randomise the order of a list using the random source. -/
def shuffle (l : List ℕ) (g : Rng) : List ℕ × Rng :=
  shuffleAux l.length l g

/-- `updateAll`: the completion-check loop at the end of each tick, over
all workers in list order, counting successes. -/
def updateAll (gN : ℕ) : List Worker → Rng → List Worker × ℕ × Rng
  | [], g => ([], 0, g)
  | w :: rest, g =>
    let u := w.update gN g
    let r := updateAll gN rest u.2.2
    (u.1 :: r.1, (if u.2.1 then 1 else 0) + r.2.1, r.2.2)

/-- Result of one full tick of `run_experiment_v2`. -/
structure TickResult where
  workers : List Worker
  db : List ℤ
  rng : Rng
  successes : ℕ
  evs : List (ℕ × ActionTag)

/-- One iteration of the loop in `run_experiment_v2`: build the pool as
the shuffled indices, walk all indices, then run the completion check
over all workers. -/
def tick (gN : ℕ) (workers : List Worker) (db : List ℤ) (g : Rng) : TickResult :=
  let n := workers.length
  let s := shuffle (List.range n) g
  let wr := tickWalk (List.range n) workers db s.1 s.2
  let u := updateAll gN wr.workers wr.rng
  ⟨u.1, wr.db, u.2.2, u.2.1, wr.evs⟩

/-- Result of `run_experiment_v2`: the per-tick success fractions plus the
final state. -/
structure RunResult where
  n_successes : List ℚ
  workers : List Worker
  db : List ℤ
  rng : Rng

/-- `run_experiment_v2(workers, n_steps)`: run `n_steps` ticks, recording
`successes / n_workers` each tick.  The division raises
`ZeroDivisionError` in the source when the worker list is empty and at
least one tick runs; that failure is `none` here. -/
def run_experiment_v2 (gN : ℕ) : ℕ → List Worker → List ℤ → Rng → Option RunResult
  | 0, workers, db, g => some ⟨[], workers, db, g⟩
  | n + 1, workers, db, g =>
    if workers.length = 0 then none
    else
      match run_experiment_v2 gN n (tick gN workers db g).workers
          (tick gN workers db g).db (tick gN workers db g).rng with
      | none => none
      | some r =>
        some ⟨(((tick gN workers db g).successes : ℚ) /
              (workers.length : ℚ)) :: r.n_successes,
          r.workers, r.db, r.rng⟩

/-- `DatabaseResearcherSettings`. -/
structure DatabaseResearcherSettings where
  forget_rate : ℚ
  socialise_rate : ℚ
  contribution_success_rate : ℚ
  database_query_rate : ℚ
  database_write_rate : ℚ
  deriving DecidableEq

/-- `DatabaseResearcher.validate_settings`: the `assert` that the three
event rates total strictly less than 1. -/
def validate_settings (s : DatabaseResearcherSettings) : Bool :=
  decide (s.socialise_rate + s.database_query_rate + s.database_write_rate < 1)

/-- `DatabaseResearcher.__init__`: the superclass chain ends in
`Researcher.__init__`, which draws the initial target; then
`validate_settings` may raise (`none` here); then `init_thresholds`
computes the cumulative thresholds. -/
def mkDatabaseResearcher (gN n_facts : ℕ) (known_facts : List ℤ)
    (s : DatabaseResearcherSettings) (g : Rng) : Option (Worker × Rng) :=
  let d := g.draw (.uniformInt 0 ((gN : ℤ) - 1))
  if validate_settings s then
    let socialise_threshold := s.socialise_rate
    let database_query_threshold := socialise_threshold + s.database_query_rate
    let database_write_threshold := database_query_threshold + s.database_write_rate
    some ({ n_facts := n_facts, known_facts := known_facts,
            target_fact := uniformIntVal 0 ((gN : ℤ) - 1) d.1,
            forget_rate := s.forget_rate,
            socialise_threshold := socialise_threshold,
            database_query_threshold := database_query_threshold,
            database_write_threshold := database_write_threshold,
            contribution_success_rate := s.contribution_success_rate }, d.2)
  else none

/-- The action-selection discipline as the claim states it (refinement
spec, written from the claim's words, to be compared with `act`):
a single draw `r` against cumulative thresholds in fixed priority order. -/
inductive SpecAction where
  | ask : SpecAction
  | query : SpecAction
  | write : SpecAction
  | research : SpecAction
  deriving DecidableEq

/-- Modelled from the claim's wording: the action that the cumulative
threshold cascade selects, given whether the pool is non-empty, whether
the agent knows anything, the draw `r`, and the three thresholds. -/
def specChosenAction (poolNonempty knowsSomething : Prop)
    [Decidable poolNonempty] [Decidable knowsSomething]
    (r soc qry wr : ℚ) : SpecAction :=
  if poolNonempty ∧ r < soc then .ask
  else if r < qry then .query
  else if knowsSomething ∧ r < wr then .write
  else .research

/-- Forget the colleague index of an `ActionTag`. -/
def ActionTag.toSpec : ActionTag → SpecAction
  | .ask _ => .ask
  | .query => .query
  | .write => .write
  | .research => .research

/-- A concrete all-zero random source, used by the concrete instances. -/
def zeroRng : Rng :=
  ⟨fun _ => 0, 0, []⟩

/-- A concrete researcher used by the concrete instances: sociable half the
time, no facts yet, hunting for fact 5. -/
def probeAsker : Worker :=
  { n_facts := 100, known_facts := [], target_fact := 5, forget_rate := 1,
    socialise_threshold := 1/2, database_query_threshold := 3/4,
    database_write_threshold := 4/5, contribution_success_rate := 0 }

/-- A concrete researcher who knows fact 5 and hunts for fact 7, with
`forget_rate = 1`. -/
def probeColleague : Worker :=
  { probeAsker with known_facts := [5], target_fact := 7 }

/-! ## Helper lemmas -/

theorem getD_mem {α : Type} (l : List α) (i : ℕ) (d : α) (h : i < l.length) :
    l.getD i d ∈ l := by
  induction l generalizing i with
  | nil => simp at h
  | cons a t ih =>
    cases i with
    | zero => simp [List.getD]
    | succ j =>
      simp only [List.getD_cons_succ]
      exact List.mem_cons_of_mem a (ih j (by simpa using h))

theorem getD_mem_or {α : Type} (l : List α) (i : ℕ) (d : α) :
    l.getD i d ∈ l ∨ l.getD i d = d := by
  by_cases h : i < l.length
  · exact Or.inl (getD_mem l i d h)
  · right
    rw [List.getD_eq_getElem?_getD, List.getElem?_eq_none (by omega)]
    rfl

theorem getD_set_ne {α : Type} (l : List α) (i j : ℕ) (h : j ≠ i) (a d : α) :
    (l.set i a).getD j d = l.getD j d := by
  simp [List.getD_eq_getElem?_getD, List.getElem?_set_ne (by omega : i ≠ j)]

theorem choiceIdx_lt (n : ℕ) (u : ℚ) (h : 0 < n) : choiceIdx n u < n := by
  unfold choiceIdx
  omega

theorem mem_setAdd {x a : ℤ} {l : List ℤ} (h : x ∈ setAdd l a) : x ∈ l ∨ x = a := by
  unfold setAdd at h
  split at h
  · exact Or.inl h
  · rcases List.mem_cons.1 h with h | h
    · exact Or.inr h
    · exact Or.inl h

theorem mem_tail {α : Type} {x : α} {l : List α} (h : x ∈ l.tail) : x ∈ l := by
  cases l with
  | nil => simp at h
  | cons a t => exact List.mem_cons_of_mem a h

/-! ### The random stream is never modified, only the cursor advances -/

theorem draw_stream (g : Rng) (k : DrawKind) : ((g.draw k).2).stream = g.stream := rfl

theorem forget_stream (w : Worker) (g : Rng) : ((w.forget g).2).stream = g.stream := by
  simp only [Worker.forget, Rng.draw]
  split
  · split <;> rfl
  · rfl

theorem generate_new_target_fact_stream (w : Worker) (gN : ℕ) (g : Rng) :
    ((w.generate_new_target_fact gN g).2).stream = g.stream := rfl

theorem do_research_stream (w : Worker) (g : Rng) :
    ((w.do_research g).2).stream = g.stream := rfl

theorem update_stream (w : Worker) (gN : ℕ) (g : Rng) :
    ((w.update gN g).2.2).stream = g.stream := by
  simp only [Worker.update, Worker.generate_new_target_fact, Rng.draw]
  split <;> rfl

theorem write_to_database_stream (w : Worker) (db : List ℤ) (g : Rng) :
    ((w.write_to_database db g).2).stream = g.stream := by
  simp only [Worker.write_to_database, Rng.draw]
  split <;> rfl

theorem ask_colleague_stream (i : ℕ) (self : Worker) (ws : List Worker)
    (pool : List ℕ) (g : Rng) :
    ((ask_colleague i self ws pool g).rng).stream = g.stream := by
  simp only [ask_colleague, Rng.draw]
  split <;> rfl

theorem actBody_stream (i : ℕ) (w1 : Worker) (ws : List Worker) (db : List ℤ)
    (pool : List ℕ) (g : Rng) :
    ((actBody i w1 ws db pool g).rng).stream = g.stream := by
  simp only [actBody, Rng.draw]
  split
  · rw [ask_colleague_stream]
  · split
    · rfl
    · split
      · rw [write_to_database_stream]
      · rw [do_research_stream]

theorem act_stream (i : ℕ) (ws : List Worker) (db : List ℤ) (pool : List ℕ)
    (g : Rng) : ((act i ws db pool g).rng).stream = g.stream := by
  simp only [act]
  rw [actBody_stream, forget_stream]

theorem tickWalk_stream (idxs : List ℕ) (ws : List Worker) (db : List ℤ)
    (pool : List ℕ) (g : Rng) :
    ((tickWalk idxs ws db pool g).rng).stream = g.stream := by
  induction idxs generalizing ws db pool g with
  | nil => rfl
  | cons idx rest ih =>
    unfold tickWalk
    split
    · simp only
      rw [ih, act_stream]
    · exact ih ws db pool g

theorem updateAll_stream (gN : ℕ) (ws : List Worker) (g : Rng) :
    ((updateAll gN ws g).2.2).stream = g.stream := by
  induction ws generalizing g with
  | nil => rfl
  | cons w rest ih =>
    unfold updateAll
    simp only
    rw [ih, update_stream]

theorem shuffleAux_stream (fuel : ℕ) (l : List ℕ) (g : Rng) :
    ((shuffleAux fuel l g).2).stream = g.stream := by
  induction fuel generalizing l g with
  | zero => rfl
  | succ n ih =>
    unfold shuffleAux
    split
    · rfl
    · simp only
      rw [ih]
      rfl

theorem shuffle_stream (l : List ℕ) (g : Rng) :
    ((shuffle l g).2).stream = g.stream :=
  shuffleAux_stream l.length l g

theorem tick_stream (gN : ℕ) (ws : List Worker) (db : List ℤ) (g : Rng) :
    ((tick gN ws db g).rng).stream = g.stream := by
  unfold tick
  simp only [shuffle]
  rw [updateAll_stream, tickWalk_stream, shuffleAux_stream]

/-! ### Shape lemmas for the individual operations -/

theorem forget_cases (w : Worker) (g : Rng) :
    (w.forget g).1 = w ∨
      (w.forget g).1 = { w with known_facts := w.known_facts.tail } := by
  simp only [Worker.forget, Rng.draw]
  split
  · split
    · exact Or.inr rfl
    · exact Or.inl rfl
  · exact Or.inl rfl

theorem update_fst (w : Worker) (gN : ℕ) (g : Rng) :
    (w.update gN g).1 = w ∨
      ∃ t, (w.update gN g).1 = { w with target_fact := t } := by
  simp only [Worker.update, Worker.generate_new_target_fact, Rng.draw]
  split
  · exact Or.inr ⟨_, rfl⟩
  · exact Or.inl rfl

theorem query_database_cases (w : Worker) (db : List ℤ) :
    w.query_database db = w ∨
      (w.target_fact ∈ db ∧
        w.query_database db =
          { w with known_facts := setAdd w.known_facts w.target_fact }) := by
  simp only [Worker.query_database]
  split
  · exact Or.inr ⟨by assumption, rfl⟩
  · exact Or.inl rfl

theorem do_research_fst (w : Worker) (g : Rng) :
    (w.do_research g).1 =
      { w with known_facts :=
          setAdd w.known_facts ⌊(w.n_facts : ℚ) * g.stream g.pos⌋ } := rfl

theorem write_to_database_cases (w : Worker) (db : List ℤ) (g : Rng) :
    (w.write_to_database db g).1 = db ∨
      (w.write_to_database db g).1 =
        setAdd db (w.known_facts.getD
          (choiceIdx w.known_facts.length (g.stream g.pos)) 0) := by
  simp only [Worker.write_to_database, Rng.draw]
  split
  · exact Or.inr rfl
  · exact Or.inl rfl

theorem write_to_database_zero_rate (w : Worker) (db : List ℤ) (g : Rng)
    (hr : w.contribution_success_rate = 0) (hwf : StreamWf g.stream) :
    (w.write_to_database db g).1 = db := by
  simp only [Worker.write_to_database, Rng.draw]
  rw [if_neg]
  rw [hr]
  exact not_lt.2 (hwf _).1

/-- Full characterisation of `ask_colleague`: which colleague is chosen,
what happens to the pool, and what happens to the cohort list. -/
theorem ask_colleague_spec (i : ℕ) (self : Worker) (ws : List Worker)
    (pool : List ℕ) (g : Rng) (h : 0 < pool.length) :
    (ask_colleague i self ws pool g).chosen ∈ pool ∧
    (ask_colleague i self ws pool g).pool =
      pool.erase (ask_colleague i self ws pool g).chosen ∧
    ((ask_colleague i self ws pool g).workers = ws ∨
      (self.target_fact ∈
          (ws.getD (ask_colleague i self ws pool g).chosen default).known_facts ∧
        (ask_colleague i self ws pool g).workers =
          ws.set i { self with
            known_facts := setAdd self.known_facts self.target_fact })) := by
  simp only [ask_colleague, Rng.draw]
  split
  · exact ⟨getD_mem _ _ _ (choiceIdx_lt _ _ h), rfl,
      Or.inr ⟨by assumption, rfl⟩⟩
  · exact ⟨getD_mem _ _ _ (choiceIdx_lt _ _ h), rfl, Or.inl rfl⟩

theorem ask_colleague_workers_length (i : ℕ) (self : Worker) (ws : List Worker)
    (pool : List ℕ) (g : Rng) :
    (ask_colleague i self ws pool g).workers.length = ws.length := by
  simp only [ask_colleague, Rng.draw]
  split <;> simp

theorem ask_colleague_getD_ne (i j : ℕ) (self : Worker) (ws : List Worker)
    (pool : List ℕ) (g : Rng) (hj : j ≠ i) :
    (ask_colleague i self ws pool g).workers.getD j default =
      ws.getD j default := by
  simp only [ask_colleague, Rng.draw]
  split
  · exact getD_set_ne ws i j hj _ _
  · rfl

/-- The pool after `act`: the ask branch removes exactly the chosen
colleague (who was in the pool), every other branch leaves it alone. -/
theorem act_pool_cases (i : ℕ) (ws : List Worker) (db : List ℤ) (pool : List ℕ)
    (g : Rng) :
    (∃ c, (act i ws db pool g).tag = .ask c ∧ c ∈ pool ∧
        (act i ws db pool g).pool = pool.erase c) ∨
      ((act i ws db pool g).pool = pool ∧
        ∀ c, (act i ws db pool g).tag ≠ .ask c) := by
  simp only [act, actBody, Rng.draw]
  split
  · rename_i hcond
    left
    refine ⟨_, rfl, ?_, ?_⟩
    · exact (ask_colleague_spec _ _ _ _ _ hcond.1).1
    · exact (ask_colleague_spec _ _ _ _ _ hcond.1).2.1
  · right
    split
    · exact ⟨rfl, by intro c h; cases h⟩
    · split
      · exact ⟨rfl, by intro c h; cases h⟩
      · exact ⟨rfl, by intro c h; cases h⟩

theorem act_workers_length (i : ℕ) (ws : List Worker) (db : List ℤ)
    (pool : List ℕ) (g : Rng) :
    (act i ws db pool g).workers.length = ws.length := by
  simp only [act, actBody, Rng.draw]
  split
  · rw [ask_colleague_workers_length]
    simp
  · split
    · simp
    · split
      · simp
      · simp

theorem act_getD_ne (i j : ℕ) (ws : List Worker) (db : List ℤ) (pool : List ℕ)
    (g : Rng) (hj : j ≠ i) :
    (act i ws db pool g).workers.getD j default = ws.getD j default := by
  simp only [act, actBody, Rng.draw]
  split
  · rw [ask_colleague_getD_ne _ _ _ _ _ _ hj, getD_set_ne _ _ _ hj]
  · split
    · rw [getD_set_ne _ _ _ hj, getD_set_ne _ _ _ hj]
    · split
      · rw [getD_set_ne _ _ _ hj]
      · rw [getD_set_ne _ _ _ hj, getD_set_ne _ _ _ hj]

/-! ### Walk-level lemmas -/

theorem tickWalk_workers_length (idxs : List ℕ) (ws : List Worker) (db : List ℤ)
    (pool : List ℕ) (g : Rng) :
    (tickWalk idxs ws db pool g).workers.length = ws.length := by
  induction idxs generalizing ws db pool g with
  | nil => rfl
  | cons idx rest ih =>
    unfold tickWalk
    split
    · simp only
      rw [ih, act_workers_length]
    · exact ih ws db pool g

theorem tickWalk_getD_not_actor (idxs : List ℕ) (ws : List Worker) (db : List ℤ)
    (pool : List ℕ) (g : Rng) (j : ℕ)
    (hj : j ∉ (tickWalk idxs ws db pool g).evs.map Prod.fst) :
    (tickWalk idxs ws db pool g).workers.getD j default = ws.getD j default := by
  induction idxs generalizing ws db pool g with
  | nil => rfl
  | cons idx rest ih =>
    unfold tickWalk at hj ⊢
    by_cases hmem : idx ∈ pool
    · rw [if_pos hmem] at hj ⊢
      simp only [List.map_cons, List.mem_cons] at hj
      push_neg at hj
      simp only
      rw [ih _ _ _ _ hj.2, act_getD_ne _ _ _ _ _ _ hj.1]
    · rw [if_neg hmem] at hj ⊢
      exact ih ws db pool g hj

theorem removalsOfEvent_of_not_ask (e : ℕ × ActionTag)
    (h : ∀ c, e.2 ≠ ActionTag.ask c) : removalsOfEvent e = [e.1] := by
  rcases e with ⟨i, t⟩
  cases t with
  | ask c => exact absurd rfl (h c)
  | query => rfl
  | write => rfl
  | research => rfl

theorem removals_cons (e : ℕ × ActionTag) (evs : List (ℕ × ActionTag)) :
    removals (e :: evs) = removalsOfEvent e ++ removals evs := rfl

theorem coe_append (l1 l2 : List ℕ) :
    ((l1 ++ l2 : List ℕ) : Multiset ℕ) = (l1 : Multiset ℕ) + (l2 : Multiset ℕ) := rfl

/-- One action's pool accounting: the pool handed in, plus the actor's
index, equals the pool handed back plus the indices the event consumed. -/
theorem act_pool_multiset (i : ℕ) (ws : List Worker) (db : List ℤ)
    (pool : List ℕ) (g : Rng) :
    (pool : Multiset ℕ) + {i} =
      ((act i ws db pool g).pool : Multiset ℕ) +
        ↑(removalsOfEvent (i, (act i ws db pool g).tag)) := by
  rcases act_pool_cases i ws db pool g with ⟨c, htag, hc, hp⟩ | ⟨hp, hnot⟩
  · rw [htag, hp, removalsOfEvent]
    have h2 : (pool : Multiset ℕ) = c ::ₘ ↑(pool.erase c) := by
      rw [← Multiset.coe_erase]
      exact (Multiset.cons_erase (by exact_mod_cast hc)).symm
    rw [h2]
    have h3 : (([i, c] : List ℕ) : Multiset ℕ) = {i} + ({c} + 0) := rfl
    rw [h3]
    simp only [← Multiset.singleton_add]
    abel
  · rw [hp, removalsOfEvent_of_not_ask _ (by exact hnot)]
    rfl

/-- The per-tick accounting identity: the initial pool is exactly the
final pool plus the removed indices (actors and asked colleagues), as
multisets. -/
theorem tickWalk_pool_multiset (idxs : List ℕ) (ws : List Worker) (db : List ℤ)
    (pool : List ℕ) (g : Rng) :
    (pool : Multiset ℕ) =
      ((tickWalk idxs ws db pool g).pool : Multiset ℕ) +
        (removals (tickWalk idxs ws db pool g).evs : Multiset ℕ) := by
  induction idxs generalizing ws db pool g with
  | nil => simp [tickWalk, removals]
  | cons idx rest ih =>
    unfold tickWalk
    split
    · rename_i hmem
      simp only
      rw [removals_cons, coe_append]
      have h1 : (pool : Multiset ℕ) = ↑(pool.erase idx) + {idx} := by
        have hcons : (pool : Multiset ℕ) = idx ::ₘ ↑(pool.erase idx) := by
          rw [← Multiset.coe_erase]
          exact (Multiset.cons_erase (by exact_mod_cast hmem)).symm
        rw [hcons, ← Multiset.singleton_add, add_comm]
      rw [h1, act_pool_multiset idx ws db (pool.erase idx) g,
        ih (act idx ws db (pool.erase idx) g).workers
          (act idx ws db (pool.erase idx) g).db
          (act idx ws db (pool.erase idx) g).pool
          (act idx ws db (pool.erase idx) g).rng]
      abel
    · exact ih ws db pool g

/-- A walk started on a duplicate-free pool never records an agent asking
itself: the scheduler erases the actor's own index before handing over
the pool. -/
theorem tickWalk_ask_ne_self (idxs : List ℕ) (ws : List Worker) (db : List ℤ)
    (pool : List ℕ) (g : Rng) (hnd : pool.Nodup) :
    ∀ e ∈ (tickWalk idxs ws db pool g).evs, ∀ c,
      e.2 = ActionTag.ask c → c ≠ e.1 := by
  induction idxs generalizing ws db pool g with
  | nil => intro e he; simp [tickWalk] at he
  | cons idx rest ih =>
    intro e he c hc
    unfold tickWalk at he
    split at he
    · rename_i hmem
      simp only [List.mem_cons] at he
      rcases act_pool_cases idx ws db (pool.erase idx) g with
        ⟨c', htag, hc', hp⟩ | ⟨hp, hnot⟩
      · rcases he with he | he
        · subst he
          simp only at hc
          rw [hc] at htag
          cases htag
          intro hh
          subst hh
          exact ((List.Nodup.mem_erase_iff hnd).1 hc').1 rfl
        · exact ih _ _ _ _ (by rw [hp]; exact (hnd.erase idx).erase c') e he c hc
      · rcases he with he | he
        · subst he
          exact absurd hc (hnot c)
        · exact ih _ _ _ _ (by rw [hp]; exact hnd.erase idx) e he c hc
    · exact ih _ _ _ _ hnd e he c hc

/-! ### Shuffle produces a permutation -/

theorem perm_getD_eraseIdx (l : List ℕ) (i : ℕ) (h : i < l.length) :
    (l.getD i 0 :: l.eraseIdx i).Perm l := by
  induction l generalizing i with
  | nil => simp at h
  | cons a t ih =>
    cases i with
    | zero => simp [List.getD]
    | succ j =>
      have hj : j < t.length := by simpa using h
      simp only [List.getD_cons_succ, List.eraseIdx_cons_succ]
      have hswap : (t.getD j 0 :: a :: t.eraseIdx j).Perm
          (a :: t.getD j 0 :: t.eraseIdx j) :=
        List.Perm.swap a (t.getD j 0) (t.eraseIdx j)
      exact hswap.trans ((ih j hj).cons a)

theorem shuffleAux_perm (fuel : ℕ) (l : List ℕ) (g : Rng)
    (h : l.length ≤ fuel) : ((shuffleAux fuel l g).1).Perm l := by
  induction fuel generalizing l g with
  | zero =>
    have : l = [] := List.length_eq_zero.1 (Nat.le_zero.1 h)
    subst this
    exact List.Perm.refl _
  | succ n ih =>
    unfold shuffleAux
    split
    · rename_i he
      rw [List.isEmpty_iff.1 he]
    · rename_i he
      have hlen : 0 < l.length := by
        cases l with
        | nil => simp at he
        | cons a t => simp
      simp only
      have hi := choiceIdx_lt l.length (g.stream g.pos) hlen
      have herase : (l.eraseIdx (choiceIdx l.length (g.stream g.pos))).length ≤ n := by
        have := List.length_eraseIdx_add_one hi
        omega
      exact ((ih _ _ herase).cons _).trans (perm_getD_eraseIdx l _ hi)

theorem shuffle_perm (l : List ℕ) (g : Rng) : ((shuffle l g).1).Perm l :=
  shuffleAux_perm l.length l g le_rfl

theorem shuffle_range_nodup (n : ℕ) (g : Rng) :
    ((shuffle (List.range n) g).1).Nodup :=
  ((shuffle_perm (List.range n) g).nodup_iff).2 (List.nodup_range n)

/-! ### Completion-check lemmas -/

theorem updateAll_length (gN : ℕ) (ws : List Worker) (g : Rng) :
    (updateAll gN ws g).1.length = ws.length := by
  induction ws generalizing g with
  | nil => rfl
  | cons w rest ih =>
    unfold updateAll
    simp only [List.length_cons]
    rw [ih]

theorem updateAll_successes_le (gN : ℕ) (ws : List Worker) (g : Rng) :
    (updateAll gN ws g).2.1 ≤ ws.length := by
  induction ws generalizing g with
  | nil => exact le_rfl
  | cons w rest ih =>
    unfold updateAll
    rcases hu : w.update gN g with ⟨w1, done, g1⟩
    rcases hrest : updateAll gN rest g1 with ⟨ws1, k, g2⟩
    simp only [hu, hrest, List.length_cons]
    have hk := ih g1
    rw [hrest] at hk
    simp only at hk
    split <;> omega

theorem updateAll_mem (gN : ℕ) (ws : List Worker) (g : Rng) :
    ∀ w1 ∈ (updateAll gN ws g).1, ∃ w ∈ ws,
      w1.known_facts = w.known_facts ∧ w1.n_facts = w.n_facts ∧
        w1.contribution_success_rate = w.contribution_success_rate := by
  induction ws generalizing g with
  | nil => intro w1 h; simp [updateAll] at h
  | cons w rest ih =>
    intro w1 h
    unfold updateAll at h
    simp only [List.mem_cons] at h
    rcases h with h | h
    · subst h
      rcases update_fst w gN g with hu | ⟨t, hu⟩
      · exact ⟨w, List.mem_cons_self _ _, by rw [hu], by rw [hu], by rw [hu]⟩
      · exact ⟨w, List.mem_cons_self _ _, by rw [hu], by rw [hu], by rw [hu]⟩
    · obtain ⟨w2, hw2, hf⟩ := ih _ w1 h
      exact ⟨w2, List.mem_cons_of_mem _ hw2, hf⟩

/-! ### Fact-range invariant (for the known-facts ⊆ [0, n_facts) claim) -/

theorem forget_in_range (N : ℕ) (w : Worker) (g : Rng)
    (hn : w.n_facts = N) (hk : ∀ x ∈ w.known_facts, 0 ≤ x ∧ x < N) :
    ((w.forget g).1).n_facts = N ∧
      ∀ x ∈ ((w.forget g).1).known_facts, 0 ≤ x ∧ x < N := by
  rcases forget_cases w g with h | h <;> rw [h]
  · exact ⟨hn, hk⟩
  · exact ⟨hn, fun x hx => hk x (mem_tail hx)⟩

theorem do_research_in_range (N : ℕ) (w : Worker) (g : Rng) (hN : 0 < N)
    (hn : w.n_facts = N) (hwf : StreamWf g.stream)
    (hk : ∀ x ∈ w.known_facts, 0 ≤ x ∧ x < N) :
    ∀ x ∈ ((w.do_research g).1).known_facts, 0 ≤ x ∧ x < N := by
  intro x hx
  rw [do_research_fst] at hx
  simp only at hx
  rcases mem_setAdd hx with h | h
  · exact hk x h
  · subst h
    obtain ⟨h0, h1⟩ := hwf g.pos
    refine ⟨Int.floor_nonneg.2 (mul_nonneg (by positivity) h0), ?_⟩
    have hmul : (w.n_facts : ℚ) * g.stream g.pos < (N : ℚ) := by
      rw [hn]
      exact mul_lt_of_lt_one_right (by exact_mod_cast hN) h1
    exact_mod_cast Int.floor_lt.2 (by exact_mod_cast hmul)

theorem actBody_in_range (N i : ℕ) (w1 : Worker) (ws : List Worker)
    (db : List ℤ) (pool : List ℕ) (g : Rng) (hN : 0 < N)
    (hwf : StreamWf g.stream)
    (hw1 : w1.n_facts = N ∧ ∀ x ∈ w1.known_facts, 0 ≤ x ∧ x < N)
    (hws : ∀ w ∈ ws, w.n_facts = N ∧ ∀ x ∈ w.known_facts, 0 ≤ x ∧ x < N)
    (hdb : ∀ x ∈ db, 0 ≤ x ∧ x < N) :
    (∀ w ∈ (actBody i w1 ws db pool g).workers,
        w.n_facts = N ∧ ∀ x ∈ w.known_facts, 0 ≤ x ∧ x < N) ∧
      ∀ x ∈ (actBody i w1 ws db pool g).db, 0 ≤ x ∧ x < N := by
  simp only [actBody]
  split
  · rename_i hcond
    simp only
    constructor
    · intro w hw
      rcases (ask_colleague_spec i w1 ws pool ((g.draw .uniformFloat).2)
          hcond.1).2.2 with heq | ⟨hmem, heq⟩
      · rw [heq] at hw
        exact hws w hw
      · rw [heq] at hw
        rcases List.mem_or_eq_of_mem_set hw with hw2 | hw2
        · exact hws w hw2
        · subst hw2
          refine ⟨hw1.1, fun x hx => ?_⟩
          simp only at hx
          rcases mem_setAdd hx with hx | hx
          · exact hw1.2 x hx
          · subst hx
            rcases getD_mem_or ws
                (ask_colleague i w1 ws pool ((g.draw .uniformFloat).2)).chosen
                default with hcol | hcol
            · exact (hws _ hcol).2 _ hmem
            · rw [hcol] at hmem
              have hdef : ((default : Worker)).known_facts = [] := rfl
              rw [hdef] at hmem
              cases hmem
    · exact hdb
  · split
    · constructor
      · intro w hw
        simp only at hw
        rcases List.mem_or_eq_of_mem_set hw with hw2 | hw2
        · exact hws w hw2
        · subst hw2
          rcases query_database_cases w1 db with hq | ⟨hqm, hq⟩
          · rw [hq]
            exact hw1
          · rw [hq]
            refine ⟨hw1.1, fun x hx => ?_⟩
            simp only at hx
            rcases mem_setAdd hx with hx | hx
            · exact hw1.2 x hx
            · subst hx
              exact hdb _ hqm
      · exact hdb
    · split
      · constructor
        · intro w hw
          simp only at hw
          exact hws w hw
        · intro x hx
          simp only at hx
          rcases write_to_database_cases w1 db ((g.draw .uniformFloat).2) with
            hw2 | hw2
          · rw [hw2] at hx
            exact hdb x hx
          · rw [hw2] at hx
            rcases mem_setAdd hx with hx | hx
            · exact hdb x hx
            · subst hx
              rcases getD_mem_or w1.known_facts _ 0 with hc | hc
              · exact hw1.2 _ hc
              · rw [hc]
                exact ⟨le_refl 0, by exact_mod_cast hN⟩
      · constructor
        · intro w hw
          simp only at hw
          rcases List.mem_or_eq_of_mem_set hw with hw2 | hw2
          · exact hws w hw2
          · subst hw2
            constructor
            · rw [do_research_fst]
              exact hw1.1
            · refine do_research_in_range N w1 ((g.draw .uniformFloat).2) hN hw1.1
                ?_ hw1.2
              rw [draw_stream]
              exact hwf
        · exact hdb

theorem act_in_range (N : ℕ) (i : ℕ) (ws : List Worker) (db : List ℤ)
    (pool : List ℕ) (g : Rng) (hN : 0 < N) (hwf : StreamWf g.stream)
    (hi : i < ws.length)
    (hws : ∀ w ∈ ws, w.n_facts = N ∧ ∀ x ∈ w.known_facts, 0 ≤ x ∧ x < N)
    (hdb : ∀ x ∈ db, 0 ≤ x ∧ x < N) :
    (∀ w ∈ (act i ws db pool g).workers,
        w.n_facts = N ∧ ∀ x ∈ w.known_facts, 0 ≤ x ∧ x < N) ∧
      ∀ x ∈ (act i ws db pool g).db, 0 ≤ x ∧ x < N := by
  have hw0 := hws _ (getD_mem ws i default hi)
  have hw1 := forget_in_range N (ws.getD i default) g hw0.1 hw0.2
  have hws1 : ∀ w ∈ ws.set i ((ws.getD i default).forget g).1,
      w.n_facts = N ∧ ∀ x ∈ w.known_facts, 0 ≤ x ∧ x < N := by
    intro w hw
    rcases List.mem_or_eq_of_mem_set hw with hw | hw
    · exact hws w hw
    · rw [hw]
      exact hw1
  have hg1 : StreamWf (((ws.getD i default).forget g).2).stream := by
    rw [forget_stream]
    exact hwf
  simp only [act]
  exact actBody_in_range N i _ _ db pool _ hN hg1 hw1 hws1 hdb

theorem tickWalk_in_range (N : ℕ) (idxs : List ℕ) (ws : List Worker)
    (db : List ℤ) (pool : List ℕ) (g : Rng) (hN : 0 < N)
    (hwf : StreamWf g.stream) (hidx : ∀ j ∈ idxs, j < ws.length)
    (hws : ∀ w ∈ ws, w.n_facts = N ∧ ∀ x ∈ w.known_facts, 0 ≤ x ∧ x < N)
    (hdb : ∀ x ∈ db, 0 ≤ x ∧ x < N) :
    (∀ w ∈ (tickWalk idxs ws db pool g).workers,
        w.n_facts = N ∧ ∀ x ∈ w.known_facts, 0 ≤ x ∧ x < N) ∧
      ∀ x ∈ (tickWalk idxs ws db pool g).db, 0 ≤ x ∧ x < N := by
  induction idxs generalizing ws db pool g with
  | nil => exact ⟨hws, hdb⟩
  | cons idx rest ih =>
    unfold tickWalk
    by_cases hmem : idx ∈ pool
    · rw [if_pos hmem]
      simp only
      have hstep := act_in_range N idx ws db (pool.erase idx) g hN hwf
        (hidx idx (List.mem_cons_self idx rest)) hws hdb
      refine ih _ _ _ _ ?_ ?_ hstep.1 hstep.2
      · rw [act_stream]; exact hwf
      · intro j hj
        rw [act_workers_length]
        exact hidx j (List.mem_cons_of_mem idx hj)
    · rw [if_neg hmem]
      exact ih ws db pool g hwf (fun j hj => hidx j (List.mem_cons_of_mem idx hj))
        hws hdb

theorem tick_in_range (gN N : ℕ) (ws : List Worker) (db : List ℤ) (g : Rng)
    (hN : 0 < N) (hwf : StreamWf g.stream)
    (hws : ∀ w ∈ ws, w.n_facts = N ∧ ∀ x ∈ w.known_facts, 0 ≤ x ∧ x < N)
    (hdb : ∀ x ∈ db, 0 ≤ x ∧ x < N) :
    (∀ w ∈ (tick gN ws db g).workers,
        w.n_facts = N ∧ ∀ x ∈ w.known_facts, 0 ≤ x ∧ x < N) ∧
      ∀ x ∈ (tick gN ws db g).db, 0 ≤ x ∧ x < N := by
  unfold tick
  rcases hs : shuffle (List.range ws.length) g with ⟨pool0, g1⟩
  simp only [hs]
  have hg1 : StreamWf g1.stream := by
    have hst := shuffle_stream (List.range ws.length) g
    rw [hs] at hst
    simp only at hst
    rw [hst]
    exact hwf
  have hwalk := tickWalk_in_range N (List.range ws.length) ws db pool0 g1 hN hg1
    (fun j hj => List.mem_range.1 hj) hws hdb
  rcases hu : updateAll gN (tickWalk (List.range ws.length) ws db pool0 g1).workers
      (tickWalk (List.range ws.length) ws db pool0 g1).rng with ⟨ws1, k, g2⟩
  simp only [hu]
  constructor
  · intro w hw
    have := updateAll_mem gN
      (tickWalk (List.range ws.length) ws db pool0 g1).workers
      (tickWalk (List.range ws.length) ws db pool0 g1).rng
    rw [hu] at this
    simp only at this
    obtain ⟨w2, hw2, hf1, hf2, _⟩ := this w hw
    obtain ⟨p1, p2⟩ := hwalk.1 w2 hw2
    exact ⟨by rw [hf2, p1], by rw [hf1]; exact p2⟩
  · exact hwalk.2

theorem run_in_range (gN N : ℕ) (n : ℕ) (ws : List Worker) (db : List ℤ)
    (g : Rng) (hN : 0 < N) (hwf : StreamWf g.stream)
    (hws : ∀ w ∈ ws, w.n_facts = N ∧ ∀ x ∈ w.known_facts, 0 ≤ x ∧ x < N)
    (hdb : ∀ x ∈ db, 0 ≤ x ∧ x < N) :
    ∀ r, run_experiment_v2 gN n ws db g = some r →
      (∀ w ∈ r.workers, w.n_facts = N ∧ ∀ x ∈ w.known_facts, 0 ≤ x ∧ x < N) ∧
        ∀ x ∈ r.db, 0 ≤ x ∧ x < N := by
  induction n generalizing ws db g with
  | zero =>
    intro r hr
    unfold run_experiment_v2 at hr
    cases hr
    exact ⟨hws, hdb⟩
  | succ n ih =>
    intro r hr
    unfold run_experiment_v2 at hr
    split at hr
    · cases hr
    · have hT := tick_in_range gN N ws db g hN hwf hws hdb
      have hTwf : StreamWf ((tick gN ws db g).rng).stream := by
        rw [tick_stream]; exact hwf
      rcases hrec : run_experiment_v2 gN n (tick gN ws db g).workers
          (tick gN ws db g).db (tick gN ws db g).rng with _ | r2
      · rw [hrec] at hr
        cases hr
      · rw [hrec] at hr
        simp only [Option.some.injEq] at hr
        subst hr
        have := ih (tick gN ws db g).workers (tick gN ws db g).db
          (tick gN ws db g).rng hTwf hT.1 hT.2 r2 hrec
        exact this

/-! ### Zero contribution rate: the database is never written -/

theorem forget_rate_preserved (w : Worker) (g : Rng) :
    ((w.forget g).1).contribution_success_rate = w.contribution_success_rate := by
  rcases forget_cases w g with h | h <;> rw [h]

theorem actBody_db_zero (i : ℕ) (w1 : Worker) (ws : List Worker) (db : List ℤ)
    (pool : List ℕ) (g : Rng) (hwf : StreamWf g.stream)
    (hr1 : w1.contribution_success_rate = 0) :
    (actBody i w1 ws db pool g).db = db := by
  simp only [actBody]
  split
  · rfl
  · split
    · rfl
    · split
      · simp only
        refine write_to_database_zero_rate w1 db ((g.draw .uniformFloat).2) hr1 ?_
        rw [draw_stream]
        exact hwf
      · rfl

theorem act_db_zero (i : ℕ) (ws : List Worker) (db : List ℤ) (pool : List ℕ)
    (g : Rng) (hwf : StreamWf g.stream)
    (hr : ∀ w ∈ ws, w.contribution_success_rate = 0) :
    (act i ws db pool g).db = db := by
  simp only [act]
  refine actBody_db_zero _ _ _ _ _ _ ?_ ?_
  · rw [forget_stream]
    exact hwf
  · rw [forget_rate_preserved]
    rcases getD_mem_or ws i default with h | h
    · exact hr _ h
    · rw [h]
      rfl

theorem actBody_rate_zero (i : ℕ) (w1 : Worker) (ws : List Worker) (db : List ℤ)
    (pool : List ℕ) (g : Rng)
    (hr1 : w1.contribution_success_rate = 0)
    (hr : ∀ w ∈ ws, w.contribution_success_rate = 0) :
    ∀ w ∈ (actBody i w1 ws db pool g).workers,
      w.contribution_success_rate = 0 := by
  simp only [actBody]
  split
  · rename_i hcond
    intro w hw
    simp only at hw
    rcases (ask_colleague_spec i w1 ws pool ((g.draw .uniformFloat).2)
        hcond.1).2.2 with heq | ⟨_, heq⟩
    · rw [heq] at hw
      exact hr w hw
    · rw [heq] at hw
      rcases List.mem_or_eq_of_mem_set hw with hw2 | hw2
      · exact hr w hw2
      · rw [hw2]
        exact hr1
  · split
    · intro w hw
      simp only at hw
      rcases List.mem_or_eq_of_mem_set hw with hw2 | hw2
      · exact hr w hw2
      · rw [hw2]
        rcases query_database_cases w1 db with hq | ⟨_, hq⟩ <;> rw [hq]
        · exact hr1
        · exact hr1
    · split
      · intro w hw
        simp only at hw
        exact hr w hw
      · intro w hw
        simp only at hw
        rcases List.mem_or_eq_of_mem_set hw with hw2 | hw2
        · exact hr w hw2
        · rw [hw2, do_research_fst]
          exact hr1

theorem act_rate_zero (i : ℕ) (ws : List Worker) (db : List ℤ) (pool : List ℕ)
    (g : Rng) (hr : ∀ w ∈ ws, w.contribution_success_rate = 0) :
    ∀ w ∈ (act i ws db pool g).workers, w.contribution_success_rate = 0 := by
  have hr1 : (((ws.getD i default).forget g).1).contribution_success_rate = 0 := by
    rw [forget_rate_preserved]
    rcases getD_mem_or ws i default with h | h
    · exact hr _ h
    · rw [h]
      rfl
  simp only [act]
  refine actBody_rate_zero _ _ _ _ _ _ hr1 ?_
  intro w hw
  rcases List.mem_or_eq_of_mem_set hw with hw2 | hw2
  · exact hr w hw2
  · rw [hw2]
    exact hr1

theorem tickWalk_db_zero (idxs : List ℕ) (ws : List Worker) (db : List ℤ)
    (pool : List ℕ) (g : Rng) (hwf : StreamWf g.stream)
    (hr : ∀ w ∈ ws, w.contribution_success_rate = 0) :
    (tickWalk idxs ws db pool g).db = db ∧
      ∀ w ∈ (tickWalk idxs ws db pool g).workers,
        w.contribution_success_rate = 0 := by
  induction idxs generalizing ws db pool g with
  | nil => exact ⟨rfl, hr⟩
  | cons idx rest ih =>
    unfold tickWalk
    by_cases hmem : idx ∈ pool
    · rw [if_pos hmem]
      simp only
      have hdb := act_db_zero idx ws db (pool.erase idx) g hwf hr
      have hrw := act_rate_zero idx ws db (pool.erase idx) g hr
      have hwf2 : StreamWf ((act idx ws db (pool.erase idx) g).rng).stream := by
        rw [act_stream]
        exact hwf
      obtain ⟨h1, h2⟩ := ih (act idx ws db (pool.erase idx) g).workers
        (act idx ws db (pool.erase idx) g).db
        (act idx ws db (pool.erase idx) g).pool
        (act idx ws db (pool.erase idx) g).rng hwf2 hrw
      exact ⟨by rw [h1, hdb], h2⟩
    · rw [if_neg hmem]
      exact ih ws db pool g hwf hr

theorem tick_db_zero (gN : ℕ) (ws : List Worker) (db : List ℤ) (g : Rng)
    (hwf : StreamWf g.stream)
    (hr : ∀ w ∈ ws, w.contribution_success_rate = 0) :
    (tick gN ws db g).db = db ∧
      ∀ w ∈ (tick gN ws db g).workers, w.contribution_success_rate = 0 := by
  unfold tick
  have hg1 : StreamWf ((shuffle (List.range ws.length) g).2).stream := by
    rw [shuffle_stream]
    exact hwf
  obtain ⟨h1, h2⟩ := tickWalk_db_zero (List.range ws.length) ws db
    ((shuffle (List.range ws.length) g).1)
    ((shuffle (List.range ws.length) g).2) hg1 hr
  refine ⟨h1, ?_⟩
  intro w hw
  simp only at hw
  obtain ⟨w2, hw2, _, _, hrate⟩ := updateAll_mem gN
    (tickWalk (List.range ws.length) ws db
      ((shuffle (List.range ws.length) g).1)
      ((shuffle (List.range ws.length) g).2)).workers
    (tickWalk (List.range ws.length) ws db
      ((shuffle (List.range ws.length) g).1)
      ((shuffle (List.range ws.length) g).2)).rng w hw
  rw [hrate]
  exact h2 w2 hw2

theorem run_db_zero (gN n : ℕ) (ws : List Worker) (db : List ℤ) (g : Rng)
    (hwf : StreamWf g.stream)
    (hr : ∀ w ∈ ws, w.contribution_success_rate = 0) :
    ∀ r, run_experiment_v2 gN n ws db g = some r → r.db = db := by
  induction n generalizing ws db g with
  | zero =>
    intro r hr2
    unfold run_experiment_v2 at hr2
    cases hr2
    rfl
  | succ n ih =>
    intro r hr2
    unfold run_experiment_v2 at hr2
    split at hr2
    · cases hr2
    · obtain ⟨hdb, hrw⟩ := tick_db_zero gN ws db g hwf hr
      have hwf2 : StreamWf ((tick gN ws db g).rng).stream := by
        rw [tick_stream]
        exact hwf
      rcases hrec : run_experiment_v2 gN n (tick gN ws db g).workers
          (tick gN ws db g).db (tick gN ws db g).rng with _ | r2
      · rw [hrec] at hr2
        cases hr2
      · rw [hrec] at hr2
        simp only [Option.some.injEq] at hr2
        subst hr2
        have hfin := ih (tick gN ws db g).workers (tick gN ws db g).db
          (tick gN ws db g).rng hwf2 hrw r2 hrec
        simp only
        rw [hfin, hdb]

/-! ### Run length and per-tick rate bounds -/

theorem tick_workers_length (gN : ℕ) (ws : List Worker) (db : List ℤ)
    (g : Rng) : (tick gN ws db g).workers.length = ws.length := by
  unfold tick
  simp only
  rw [updateAll_length, tickWalk_workers_length]

theorem tick_successes_le (gN : ℕ) (ws : List Worker) (db : List ℤ) (g : Rng) :
    (tick gN ws db g).successes ≤ ws.length := by
  unfold tick
  simp only
  have h1 := updateAll_successes_le gN
    (tickWalk (List.range ws.length) ws db
      ((shuffle (List.range ws.length) g).1)
      ((shuffle (List.range ws.length) g).2)).workers
    (tickWalk (List.range ws.length) ws db
      ((shuffle (List.range ws.length) g).1)
      ((shuffle (List.range ws.length) g).2)).rng
  rw [tickWalk_workers_length] at h1
  exact h1

theorem run_length_bounds (gN n : ℕ) (ws : List Worker) (db : List ℤ)
    (g : Rng) (h : ws ≠ []) :
    ∃ r, run_experiment_v2 gN n ws db g = some r ∧
      r.n_successes.length = n ∧ ∀ q ∈ r.n_successes, 0 ≤ q ∧ q ≤ 1 := by
  induction n generalizing ws db g with
  | zero =>
    refine ⟨⟨[], ws, db, g⟩, rfl, rfl, ?_⟩
    intro q hq
    cases hq
  | succ n ih =>
    have hlen : ws.length ≠ 0 := fun hc => h (List.length_eq_zero.1 hc)
    have hlen2 : (tick gN ws db g).workers ≠ [] := by
      intro hc
      apply hlen
      rw [← tick_workers_length gN ws db g, hc]
      rfl
    obtain ⟨r2, hr2, hl2, hb2⟩ := ih (tick gN ws db g).workers
      (tick gN ws db g).db (tick gN ws db g).rng hlen2
    refine ⟨⟨(((tick gN ws db g).successes : ℚ) / (ws.length : ℚ)) ::
        r2.n_successes, r2.workers, r2.db, r2.rng⟩, ?_, ?_, ?_⟩
    · unfold run_experiment_v2
      rw [if_neg hlen, hr2]
    · simp only [List.length_cons, hl2]
    · intro q hq
      rcases List.mem_cons.1 hq with hq | hq
      · subst hq
        have hpos : (0 : ℚ) < (ws.length : ℚ) := by
          exact_mod_cast Nat.pos_of_ne_zero hlen
        constructor
        · positivity
        · rw [div_le_one hpos]
          exact_mod_cast tick_successes_le gN ws db g
      · exact hb2 q hq

/-! ### Splitting a duplicate-free pool along the accounting identity -/

theorem nodup_split (pool pool2 rem : List ℕ) (hnd : pool.Nodup)
    (hid : (pool : Multiset ℕ) = (pool2 : Multiset ℕ) + (rem : Multiset ℕ)) :
    rem.Nodup ∧ ∀ i, (i ∈ pool ∧ i ∉ pool2) ↔ i ∈ rem := by
  constructor
  · have hle : (rem : Multiset ℕ) ≤ (pool : Multiset ℕ) := by
      rw [hid]
      exact Multiset.le_add_left _ _
    have hnd2 : Multiset.Nodup (pool : Multiset ℕ) := by
      exact_mod_cast hnd
    exact_mod_cast Multiset.nodup_of_le hle hnd2
  · intro i
    have hcount := congrArg (Multiset.count i) hid
    rw [Multiset.count_add] at hcount
    rw [Multiset.coe_count, Multiset.coe_count, Multiset.coe_count] at hcount
    have h1 : pool.count i ≤ 1 := List.nodup_iff_count_le_one.1 hnd i
    constructor
    · rintro ⟨hin, hout⟩
      have hin2 : 1 ≤ pool.count i := List.count_pos_iff.2 hin
      have hout2 : pool2.count i = 0 := by
        rcases Nat.eq_zero_or_pos (pool2.count i) with h | h
        · exact h
        · exact absurd (List.count_pos_iff.1 h) hout
      have : 1 ≤ rem.count i := by omega
      exact List.count_pos_iff.1 this
    · intro hin
      have hin2 : 1 ≤ rem.count i := List.count_pos_iff.2 hin
      constructor
      · exact List.count_pos_iff.1 (by omega)
      · intro hc
        have := List.count_pos_iff.2 hc
        omega

/-! ### Fields untouched by forgetting -/

theorem forget_fields (w : Worker) (g : Rng) :
    ((w.forget g).1).socialise_threshold = w.socialise_threshold ∧
      ((w.forget g).1).database_query_threshold = w.database_query_threshold ∧
      ((w.forget g).1).database_write_threshold = w.database_write_threshold := by
  rcases forget_cases w g with h | h <;> rw [h] <;> exact ⟨rfl, rfl, rfl⟩

theorem forget_removes (w : Worker) (g : Rng)
    (hk : 0 < w.known_facts.length)
    (hd : g.stream g.pos < w.forget_rate) :
    ((w.forget g).1).known_facts = w.known_facts.tail := by
  simp only [Worker.forget, Rng.draw]
  rw [if_pos hk, if_pos hd]

/-! ## Claim theorems -/

theorem zeroRng_wf : StreamWf zeroRng.stream :=
  fun _ => ⟨le_rfl, zero_lt_one⟩

/-- C2 (counterexample): `run_experiment_v2` does not return a sequence
for every list of agents — on the empty agent list with one tick the
source raises `ZeroDivisionError` (`successes / n_workers` with
`n_workers = 0`), modelled as `none`, so no sequence of length 1 in [0,1]
is returned. -/
theorem claim2_counterexample :
    run_experiment_v2 100 1 [] [] zeroRng = none := rfl

/-- C2 (amended): for every NON-EMPTY list of agents and every
`n_ticks ≥ 0`, the runner returns a sequence of exactly `n_ticks` values,
each of them a fraction in [0,1] (the tick's success count divided by the
population size). -/
theorem claim2_run_length_bounds (gN n : ℕ) (ws : List Worker) (db : List ℤ)
    (g : Rng) (h : ws ≠ []) :
    ∃ r, run_experiment_v2 gN n ws db g = some r ∧
      r.n_successes.length = n ∧ ∀ q ∈ r.n_successes, 0 ≤ q ∧ q ≤ 1 :=
  run_length_bounds gN n ws db g h

/-- Witness for C2 (amended) at a concrete input. -/
theorem claim2_witness :
    ([probeAsker] : List Worker) ≠ [] ∧
      ∃ r, run_experiment_v2 100 2 [probeAsker] [] zeroRng = some r ∧
        r.n_successes.length = 2 ∧ ∀ q ∈ r.n_successes, 0 ≤ q ∧ q ≤ 1 :=
  ⟨by decide, claim2_run_length_bounds 100 2 [probeAsker] [] zeroRng (by decide)⟩

/-- C3: constructing a `DatabaseResearcher` fails (the `assert` in
`validate_settings` raises, modelled as `none`) if and only if
`socialise_rate + database_query_rate + database_write_rate ≥ 1`;
any configuration with the sum strictly below 1 constructs successfully. -/
theorem claim3_construction_validation (gN n_facts : ℕ) (known : List ℤ)
    (s : DatabaseResearcherSettings) (g : Rng) :
    mkDatabaseResearcher gN n_facts known s g = none ↔
      1 ≤ s.socialise_rate + s.database_query_rate + s.database_write_rate := by
  simp only [mkDatabaseResearcher, validate_settings]
  by_cases h : s.socialise_rate + s.database_query_rate + s.database_write_rate < 1
  · rw [if_pos (decide_eq_true h)]
    constructor
    · intro hc
      exact absurd hc (Option.some_ne_none _)
    · intro hc
      linarith
  · rw [if_neg (fun hc => h (of_decide_eq_true hc))]
    constructor
    · intro _
      exact not_lt.1 h
    · intro _
      rfl

/-- C4: within one tick of the v2 scheduler (pool built by shuffling
`range n`, then walked by `tickWalk`), the consumed free-resource indices
(`removals`: each acting agent's own index plus, for an ask action, the
chosen colleague) are pairwise distinct, and an index is removed from the
pool exactly when it was consumed by an act or an ask — so no two agents
consume the same free-resource index. -/
theorem claim4_single_use_pool (ws : List Worker) (db : List ℤ) (g : Rng) :
    (removals (tickWalk (List.range ws.length) ws db
        ((shuffle (List.range ws.length) g).1)
        ((shuffle (List.range ws.length) g).2)).evs).Nodup ∧
      ∀ i : ℕ,
        (i ∈ (shuffle (List.range ws.length) g).1 ∧
            i ∉ (tickWalk (List.range ws.length) ws db
              ((shuffle (List.range ws.length) g).1)
              ((shuffle (List.range ws.length) g).2)).pool) ↔
          i ∈ removals (tickWalk (List.range ws.length) ws db
            ((shuffle (List.range ws.length) g).1)
            ((shuffle (List.range ws.length) g).2)).evs :=
  nodup_split _ _ _ (shuffle_range_nodup ws.length g)
    (tickWalk_pool_multiset (List.range ws.length) ws db
      ((shuffle (List.range ws.length) g).1)
      ((shuffle (List.range ws.length) g).2))

/-- C5 (counterexample): the draw used to generate a new search target and
the draw used to simulate finding a fact in independent research are NOT
from the same distribution: the target generator requests a uniform
integer draw (`random.randint`), research requests a Beta(0.8, 2) draw
(`random.betavariate`), as the draw traces show. -/
theorem claim5_counterexample :
    (probeAsker.generate_new_target_fact 100 zeroRng).2.log ≠
      (probeAsker.do_research zeroRng).2.log := by decide

/-- C5 (amended): the target generator draws a uniform integer in
[0, n_facts) via `random.randint(0, n_facts-1)` (on the module-level
`n_facts`), while independent research draws from Beta(a=0.8, b=2) scaled
by the agent's own `n_facts` and truncated; the two requested
distributions are distinct. -/
theorem claim5_two_distributions (gN : ℕ) (w : Worker) (g : Rng) :
    ((w.generate_new_target_fact gN g).2.log =
        g.log ++ [DrawKind.uniformInt 0 ((gN : ℤ) - 1)]) ∧
      ((w.do_research g).2.log = g.log ++ [DrawKind.betaVariate betaA betaB]) ∧
      DrawKind.uniformInt 0 ((gN : ℤ) - 1) ≠ DrawKind.betaVariate betaA betaB ∧
      ((w.generate_new_target_fact gN g).1.target_fact =
        uniformIntVal 0 ((gN : ℤ) - 1) (g.stream g.pos)) ∧
      ((w.do_research g).1.known_facts =
        setAdd w.known_facts ⌊(w.n_facts : ℚ) * g.stream g.pos⌋) := by
  refine ⟨rfl, rfl, ?_, rfl, rfl⟩
  intro h
  exact DrawKind.noConfusion h

/-- C7: when an agent executes `ask_colleague`, the chosen colleague is
drawn from the pool, is never the asker (whose index the scheduler removed
first), the only pool change is the removal of the chosen index, the
chosen colleague's state is untouched, and the cohort is either unchanged
or changed only at the asker, whose `known_facts` gain its own
`target_fact`. -/
theorem claim7_ask_read_only (i : ℕ) (self : Worker) (ws : List Worker)
    (pool : List ℕ) (g : Rng) (hne : pool ≠ []) (hi : i ∉ pool) :
    (ask_colleague i self ws pool g).chosen ∈ pool ∧
      (ask_colleague i self ws pool g).chosen ≠ i ∧
      (ask_colleague i self ws pool g).pool =
        pool.erase (ask_colleague i self ws pool g).chosen ∧
      (ask_colleague i self ws pool g).workers.getD
          (ask_colleague i self ws pool g).chosen default =
        ws.getD (ask_colleague i self ws pool g).chosen default ∧
      ((ask_colleague i self ws pool g).workers = ws ∨
        (ask_colleague i self ws pool g).workers =
          ws.set i { self with
            known_facts := setAdd self.known_facts self.target_fact }) := by
  have hlen : 0 < pool.length := List.length_pos.2 hne
  obtain ⟨h1, h2, h3⟩ := ask_colleague_spec i self ws pool g hlen
  have hne2 : (ask_colleague i self ws pool g).chosen ≠ i := fun hc => hi (hc ▸ h1)
  refine ⟨h1, hne2, h2, ?_, ?_⟩
  · rcases h3 with h | ⟨_, h⟩ <;> rw [h]
    exact getD_set_ne ws i _ hne2 _ _
  · rcases h3 with h | ⟨_, h⟩
    · exact Or.inl h
    · exact Or.inr h

/-- Witness for C7 at a concrete input. -/
theorem claim7_witness :
    ([1] : List ℕ) ≠ [] ∧ (0 : ℕ) ∉ ([1] : List ℕ) ∧
      ((ask_colleague 0 probeAsker [probeAsker, probeColleague] [1]
          zeroRng).chosen ∈ ([1] : List ℕ) ∧
        (ask_colleague 0 probeAsker [probeAsker, probeColleague] [1]
          zeroRng).chosen ≠ 0 ∧
        (ask_colleague 0 probeAsker [probeAsker, probeColleague] [1]
            zeroRng).pool =
          ([1] : List ℕ).erase (ask_colleague 0 probeAsker
            [probeAsker, probeColleague] [1] zeroRng).chosen ∧
        (ask_colleague 0 probeAsker [probeAsker, probeColleague] [1]
            zeroRng).workers.getD (ask_colleague 0 probeAsker
              [probeAsker, probeColleague] [1] zeroRng).chosen default =
          ([probeAsker, probeColleague] : List Worker).getD
            (ask_colleague 0 probeAsker [probeAsker, probeColleague] [1]
              zeroRng).chosen default ∧
        ((ask_colleague 0 probeAsker [probeAsker, probeColleague] [1]
            zeroRng).workers = [probeAsker, probeColleague] ∨
          (ask_colleague 0 probeAsker [probeAsker, probeColleague] [1]
              zeroRng).workers =
            ([probeAsker, probeColleague] : List Worker).set 0
              { probeAsker with
                known_facts := setAdd probeAsker.known_facts
                  probeAsker.target_fact })) :=
  ⟨by decide, by decide,
    claim7_ask_read_only 0 probeAsker [probeAsker, probeColleague] [1] zeroRng
      (by decide) (by decide)⟩

/-- C9: with `contribution_success_rate = 0` for every agent of the
cohort, the shared database is never modified during a run: every write
attempt (`random() < 0` never holds) is a silent no-op, so the store
equals its initial value — in particular an initially empty store stays
empty. -/
theorem claim9_zero_contribution_rate (gN n : ℕ) (ws : List Worker)
    (db : List ℤ) (g : Rng) (hwf : StreamWf g.stream)
    (hr : ∀ w ∈ ws, w.contribution_success_rate = 0) :
    ∀ r, run_experiment_v2 gN n ws db g = some r → r.db = db :=
  run_db_zero gN n ws db g hwf hr

/-- Witness for C9 at a concrete input. -/
theorem claim9_witness :
    StreamWf zeroRng.stream ∧
      (∀ w ∈ ([probeAsker, probeColleague] : List Worker),
        w.contribution_success_rate = 0) ∧
      ∀ r, run_experiment_v2 100 2 [probeAsker, probeColleague] [] zeroRng =
          some r → r.db = [] :=
  ⟨zeroRng_wf, by decide,
    claim9_zero_contribution_rate 100 2 [probeAsker, probeColleague] []
      zeroRng zeroRng_wf (by decide)⟩

/-- C10: under the v2 scheduler an agent never asks itself: in any tick
walk over the shuffled pool, every recorded ask event chose a colleague
different from the asker (the scheduler removed the asker's own index
from the pool before handing it over). -/
theorem claim10_no_self_ask (ws : List Worker) (db : List ℤ) (g : Rng) :
    ∀ e ∈ (tickWalk (List.range ws.length) ws db
        ((shuffle (List.range ws.length) g).1)
        ((shuffle (List.range ws.length) g).2)).evs,
      ∀ c, e.2 = ActionTag.ask c → c ≠ e.1 :=
  tickWalk_ask_ne_self (List.range ws.length) ws db
    ((shuffle (List.range ws.length) g).1)
    ((shuffle (List.range ws.length) g).2)
    (shuffle_range_nodup ws.length g)

/-- Witness for C10 at a concrete input where an ask actually happens. -/
theorem claim10_witness :
    (0, ActionTag.ask 1) ∈ (tickWalk (List.range 2)
        [probeAsker, probeColleague] []
        ((shuffle (List.range 2) zeroRng).1)
        ((shuffle (List.range 2) zeroRng).2)).evs ∧
      (1 : ℕ) ≠ 0 :=
  ⟨by decide,
    claim10_no_self_ask [probeAsker, probeColleague] [] zeroRng
      (0, ActionTag.ask 1) (by decide) 1 rfl⟩

/-- C1: in `DatabaseResearcher.act`, the action is selected by a single
draw `r` compared against the cumulative thresholds in fixed priority
order — ask a free colleague (only when the pool is non-empty and
`r <` socialise threshold), else query the store (when `r <` query
threshold), else write (only when `known_facts` is non-empty and `r <`
write threshold), else independent research — exactly the cascade
`specChosenAction` written from the claim; and when the pool is empty
while `r` falls in the socialise band (below the socialise threshold,
which lies below the query threshold), the agent falls through to the
query action instead of failing. -/
theorem claim1_threshold_priority (i : ℕ) (ws : List Worker) (db : List ℤ)
    (pool : List ℕ) (g : Rng) :
    ((act i ws db pool g).tag).toSpec =
      specChosenAction (0 < pool.length)
        (0 < (((ws.getD i default).forget g).1).known_facts.length)
        ((((ws.getD i default).forget g).2).stream
          ((((ws.getD i default).forget g).2).pos))
        ((ws.getD i default).socialise_threshold)
        ((ws.getD i default).database_query_threshold)
        ((ws.getD i default).database_write_threshold) ∧
      (pool = [] →
        (((ws.getD i default).forget g).2).stream
            ((((ws.getD i default).forget g).2).pos) <
          (ws.getD i default).socialise_threshold →
        (ws.getD i default).socialise_threshold ≤
          (ws.getD i default).database_query_threshold →
        (act i ws db pool g).tag = ActionTag.query) := by
  obtain ⟨hs, hq, hw⟩ := forget_fields (ws.getD i default) g
  have hd : ((((ws.getD i default).forget g).2).draw DrawKind.uniformFloat).1 =
      (((ws.getD i default).forget g).2).stream
        ((((ws.getD i default).forget g).2).pos) := rfl
  constructor
  · simp only [act, actBody, specChosenAction]
    rw [hd, hs, hq, hw]
    split_ifs <;> rfl
  · intro hpool hsoc hle
    subst hpool
    have h1 : ¬ (0 < ([] : List ℕ).length) := by decide
    have h3 : (((ws.getD i default).forget g).2).stream
        ((((ws.getD i default).forget g).2).pos) <
        (ws.getD i default).database_query_threshold := lt_of_lt_of_le hsoc hle
    simp only [act, actBody]
    rw [hd, hs, hq, hw]
    rw [if_neg (fun hc => h1 hc.1), if_pos h3]

/-- Witness for C1 at a concrete input exercising the empty-pool
fallthrough: the draw falls in the socialise band but the pool is empty,
and the agent queries the store. -/
theorem claim1_witness :
    zeroRng.stream zeroRng.pos < probeAsker.socialise_threshold ∧
      probeAsker.socialise_threshold ≤ probeAsker.database_query_threshold ∧
      (act 0 [probeAsker] [] [] zeroRng).tag = ActionTag.query :=
  ⟨by decide, by decide,
    (claim1_threshold_priority 0 [probeAsker] [] [] zeroRng).2 rfl (by decide)
      (by decide)⟩

/-- C6 (counterexample): forgetting does NOT occur every tick for every
agent.  `probeColleague` has `forget_rate = 1` and a non-empty
`known_facts`, so any executed forget step would remove a fact (as the
third conjunct shows for this draw sequence); yet in a tick where it is
consumed as a colleague by agent 0's ask action it does not act, and its
`known_facts` are unchanged — no forget draw ever happened for it. -/
theorem claim6_counterexample :
    probeColleague.forget_rate = 1 ∧ probeColleague.known_facts = [5] ∧
      (probeColleague.forget zeroRng).1.known_facts = [] ∧
      (tick 100 [probeAsker, probeColleague] [] zeroRng).evs =
        [(0, ActionTag.ask 1)] ∧
      ((tick 100 [probeAsker, probeColleague] [] zeroRng).workers.getD 1
          default).known_facts = [5] := by decide

/-- C6 (amended): the forgetting step runs at the start of every `act`
invocation, before and independently of the action draw (`act` factors
through `forget`); a forget step on a non-empty `known_facts` with its
draw below `forget_rate` removes one fact whatever action follows; but an
agent that does not act in a tick (for example because a colleague
consumed its index) is left untouched, so it does not forget that tick. -/
theorem claim6_forget_only_on_act :
    (∀ (i : ℕ) (ws : List Worker) (db : List ℤ) (pool : List ℕ) (g : Rng),
        act i ws db pool g =
          actBody i ((ws.getD i default).forget g).1
            (ws.set i ((ws.getD i default).forget g).1) db pool
            ((ws.getD i default).forget g).2) ∧
      (∀ (w : Worker) (g : Rng), 0 < w.known_facts.length →
        g.stream g.pos < w.forget_rate →
        ((w.forget g).1).known_facts = w.known_facts.tail) ∧
      ∀ (idxs : List ℕ) (ws : List Worker) (db : List ℤ) (pool : List ℕ)
          (g : Rng) (j : ℕ),
        j ∉ (tickWalk idxs ws db pool g).evs.map Prod.fst →
        (tickWalk idxs ws db pool g).workers.getD j default =
          ws.getD j default :=
  ⟨fun _ _ _ _ _ => rfl, forget_removes, tickWalk_getD_not_actor⟩

/-- Witness for C6 (amended) at concrete inputs: a forget step that does
fire, and a non-acting agent left untouched by a walk. -/
theorem claim6_witness :
    (0 < probeColleague.known_facts.length ∧
      zeroRng.stream zeroRng.pos < probeColleague.forget_rate ∧
      (probeColleague.forget zeroRng).1.known_facts =
        probeColleague.known_facts.tail) ∧
      (1 ∉ (tickWalk [0] [probeAsker, probeColleague] [] [0]
          zeroRng).evs.map Prod.fst ∧
        (tickWalk [0] [probeAsker, probeColleague] [] [0]
            zeroRng).workers.getD 1 default =
          ([probeAsker, probeColleague] : List Worker).getD 1 default) :=
  ⟨⟨by decide, by decide,
      claim6_forget_only_on_act.2.1 probeColleague zeroRng (by decide)
        (by decide)⟩,
    ⟨by decide,
      claim6_forget_only_on_act.2.2 [0] [probeAsker, probeColleague] [] [0]
        zeroRng 1 (by decide)⟩⟩

/-- C8: for a cohort of agents sharing a fact-space size `N > 0`, if every
agent starts with `known_facts ⊆ [0, N)` and `target_fact ∈ [0, N)`, and
the shared store starts inside `[0, N)`, then after any number of ticks of
`run_experiment_v2` every agent's `known_facts` is still contained in
`[0, N)` (every operation — research, ask, query, write, forget,
re-target — preserves the invariant). -/
theorem claim8_known_facts_in_range (gN N n : ℕ) (ws : List Worker)
    (db : List ℤ) (g : Rng) (hN : 0 < N) (hwf : StreamWf g.stream)
    (hws : ∀ w ∈ ws, w.n_facts = N ∧ (∀ x ∈ w.known_facts, 0 ≤ x ∧ x < N) ∧
      0 ≤ w.target_fact ∧ w.target_fact < N)
    (hdb : ∀ x ∈ db, 0 ≤ x ∧ x < N) :
    ∀ r, run_experiment_v2 gN n ws db g = some r →
      ∀ w ∈ r.workers, ∀ x ∈ w.known_facts, 0 ≤ x ∧ x < N := by
  intro r hr w hw
  exact ((run_in_range gN N n ws db g hN hwf
    (fun w2 hw2 => ⟨(hws w2 hw2).1, (hws w2 hw2).2.1⟩) hdb r hr).1 w hw).2

/-- Witness for C8 at a concrete input. -/
theorem claim8_witness :
    (0 < 100) ∧ StreamWf zeroRng.stream ∧
      (∀ w ∈ ([probeAsker, probeColleague] : List Worker),
        w.n_facts = 100 ∧ (∀ x ∈ w.known_facts, 0 ≤ x ∧ x < (100 : ℕ)) ∧
          0 ≤ w.target_fact ∧ w.target_fact < (100 : ℕ)) ∧
      ∀ r, run_experiment_v2 100 2 [probeAsker, probeColleague] []
          zeroRng = some r →
        ∀ w ∈ r.workers, ∀ x ∈ w.known_facts, 0 ≤ x ∧ x < (100 : ℕ) :=
  ⟨by decide, zeroRng_wf, by decide,
    claim8_known_facts_in_range 100 100 2 [probeAsker, probeColleague] []
      zeroRng (by decide) zeroRng_wf (by decide) (by decide)⟩

end InfoFlow
